import Mathlib

/-!
Shallow embedding of the Pac-Man typing test engine
(`src/typingTest.js`) and of the completion effect of the background
animation (`src/animations.js`).

Conventions of the embedding:
* JavaScript strings are `List Char`; `s[i]` (which yields `undefined`
  out of range) is `l[i]?  : Option Char`, and `===` on possibly
  undefined characters is equality of `Option Char`.
* `Math.random()` draws are modelled by streams: an index stream
  `rng : ℕ → ℕ` where the JS expression `Math.floor(Math.random()*n)`
  at the k-th draw is `rng k % n`, and (for the animation) a value
  stream `rq : ℕ → ℚ` standing for the raw `Math.random()` values.
* Timestamps (`Date.now()`) are integer parameters `now` in
  milliseconds; real-valued metrics are computed in `ℚ`.
* `setInterval`/`clearInterval` are modelled by a Boolean `timerArmed`
  flag plus an explicit `tick` transition (one elapsed second while the
  timer is armed); `clearTimer` disarms the flag.
* The `onComplete` callback emission of `completeTest` is recorded in a
  ghost field `completedEvent`, which is what distinguishes the spec
  phase `completed` from `stopped`.
-/

namespace PacTyping

/-- Difficulty keys of `contentData.difficulties`. -/
inductive Difficulty where
  | easy | normal | hard | expert | advanced
deriving DecidableEq, Repr

/-- Test mode (`config.mode`). -/
inductive Mode where
  | words | code
deriving DecidableEq, Repr

/-- Language keys of `contentData.code_snippets`. -/
inductive Language where
  | python | javascript | cpp | java
deriving DecidableEq, Repr

/-- `this.config`: difficulty, mode, language, time (minutes). -/
structure Config where
  difficulty : Difficulty
  mode : Mode
  language : Language
  time : ℕ
deriving DecidableEq, Repr

/-- The default configuration set in the constructor. -/
def defaultConfig : Config :=
  { difficulty := .normal, mode := .words, language := .javascript, time := 3 }

/-- `contentData.difficulties[d].words`. -/
def difficultyWords : Difficulty → List (List Char)
  | .easy => (["cat", "dog", "run", "fun", "sun", "hat", "bat", "mat", "car", "bar",
      "toy", "boy", "joy", "day", "way", "say", "may", "ray", "key", "see"]).map String.data
  | .normal => (["keyboard", "typing", "practice", "accuracy", "speed", "computer",
      "pacman", "arcade", "challenge", "improve", "exercise", "rhythm", "finger",
      "position"]).map String.data
  | .hard => (["algorithm", "efficiency", "performance", "optimization", "sophisticated",
      "implementation", "architecture", "methodology", "comprehensive",
      "fundamental"]).map String.data
  | .expert => (["asynchronous", "polymorphism", "encapsulation", "abstraction",
      "inheritance", "composition", "instantiation", "serialization", "multithreading",
      "concurrency"]).map String.data
  | .advanced => (["metaprogramming", "concurrency", "serialization", "deserialization",
      "multithreading", "parallelization", "synchronization", "virtualization",
      "containerization", "orchestration"]).map String.data

/-- `contentData.difficulties[d].sentences`. -/
def difficultySentences : Difficulty → List (List Char)
  | .easy => (["The cat runs fast.", "Dogs like to play.", "Sun is very bright.",
      "I love to read books.", "Birds fly in the sky."]).map String.data
  | .normal => (["Practice makes perfect typing.", "Arcade games are really fun.",
      "Typing speed improves with time.",
      "Focus on accuracy first, then speed."]).map String.data
  | .hard => (["Algorithm efficiency determines program performance.",
      "Sophisticated implementations require careful optimization.",
      "Comprehensive testing ensures reliable software architecture."]).map String.data
  | .expert => (["Asynchronous programming improves application responsiveness.",
      "Polymorphism enables flexible object-oriented design patterns.",
      "Encapsulation provides data security and code maintainability."]).map String.data
  | .advanced => (["Metaprogramming techniques enable dynamic code generation.",
      "Concurrency management prevents race condition vulnerabilities.",
      "Containerization simplifies application deployment and scaling."]).map String.data

/-- `contentData.code_snippets[lang]`.  Literal braces, apostrophes and
backquotes of the JavaScript source strings are written with `\xNN`
escapes. -/
def codeSnippets : Language → List (List Char)
  | .python => (["def calculate_wpm(chars, time):\n    return (chars / 5) / (time / 60)",
      "for i in range(10):\n    print(f\x27Number: \x7bi\x7d\x27)",
      "class PacMan:\n    def __init__(self, x, y):\n        self.x = x\n        self.y = y",
      "import pygame\nfrom typing import List, Tuple",
      "result = [x**2 for x in range(5) if x % 2 == 0]"]).map String.data
  | .javascript => (["function calculateWPM(chars, time) \x7b\n  return (chars / 5) / (time / 60);\n\x7d",
      "const pacman = \x7b x: 0, y: 0, direction: \x27right\x27 \x7d;",
      "for (let i = 0; i < 10; i++) \x7b\n  console.log(\x60Number: $\x7bi\x7d\x60);\n\x7d",
      "const canvas = document.getElementById(\x27gameCanvas\x27);\nconst ctx = canvas.getContext(\x272d\x27);",
      "setTimeout(() => \x7b\n  console.log(\x27Game started!\x27);\n\x7d, 1000);"]).map String.data
  | .cpp => (["#include <iostream>\n#include <vector>\nusing namespace std;",
      "class PacMan \x7b\nprivate:\n  int x, y;\npublic:\n  PacMan(int startX, int startY);\n\x7d;",
      "for (int i = 0; i < 10; ++i) \x7b\n  cout << \"Number: \" << i << endl;\n\x7d",
      "vector<int> scores = \x7b100, 200, 300\x7d;\nsort(scores.begin(), scores.end());",
      "auto lambda = [](int a, int b) \x7b return a + b; \x7d;"]).map String.data
  | .java => (["public class PacMan \x7b\n  private int x, y;\n  public PacMan(int x, int y) \x7b\n    this.x = x; this.y = y;\n  \x7d\n\x7d",
      "List<Integer> scores = new ArrayList<>();\nscores.add(100);",
      "for (int i = 0; i < 10; i++) \x7b\n  System.out.println(\"Number: \" + i);\n\x7d",
      "Map<String, Integer> gameStats = new HashMap<>();",
      "try \x7b\n  // Game logic here\n\x7d catch (Exception e) \x7b\n  e.printStackTrace();\n\x7d"]).map String.data

/-- Termination helper for the sentence loops: splicing a random index
out of a non-empty pool strictly shrinks it. -/
theorem length_eraseIdx_mod_lt (l : List (List Char)) (hl : l ≠ []) (k : ℕ) :
    (l.eraseIdx (k % l.length)).length < l.length := by
  have hlen : 0 < l.length := List.length_pos.mpr hl
  have hk : k % l.length < l.length := Nat.mod_lt _ hlen
  simp [List.length_eraseIdx, hk]
  omega

/-- The sentence phase of `generateTestText` (words mode): while
`currentLength < targetChars * 0.6` and the sentence pool is non-empty,
splice a random sentence out of the pool (draw without replacement),
append it to the parts, and add `sentence.length + 1` to the running
length.  Returns the drawn parts in draw order, the final running
length, and the next random-draw index.

The JS threshold `targetChars * 0.6` is a float; since every reachable
`targetChars` is a multiple of 200, the IEEE-double product is exactly
the integer `targetChars * 6 / 10`, which is how the threshold is
passed in here. -/
def sentenceLoop (rng : ℕ → ℕ) (threshold : ℕ) :
    List (List Char) → ℕ → ℕ → List (List Char) × ℕ × ℕ
  | sentences, currentLength, i =>
    if h : currentLength < threshold ∧ sentences ≠ [] then
      let idx := rng i % sentences.length
      let sentence := sentences.getD idx []
      let rest := sentences.eraseIdx idx
      let r := sentenceLoop rng threshold rest (currentLength + sentence.length + 1) (i + 1)
      (sentence :: r.1, r.2)
    else ([], currentLength, i)
termination_by sentences _ _ => sentences.length
decreasing_by exact length_eraseIdx_mod_lt _ h.2 _

/-- The word phase of `generateTestText` (words mode): while
`currentLength < targetChars` and the word pool is non-empty, draw a
random word (with replacement — the pool is not shrunk), append it, and
add `word.length + 1` to the running length. -/
def wordLoop (rng : ℕ → ℕ) (targetChars : ℕ) (words : List (List Char)) :
    ℕ → ℕ → List (List Char)
  | currentLength, i =>
    if h : currentLength < targetChars ∧ words ≠ [] then
      let word := words.getD (rng i % words.length) []
      word :: wordLoop rng targetChars words (currentLength + word.length + 1) (i + 1)
    else []
termination_by currentLength _ => targetChars - currentLength
decreasing_by omega

/-- `TypingTestManager.generateTestText`, as a function of the
configuration and the random stream.  In code mode it picks one snippet
uniformly at random (the `|| javascript` fallback of the source is
unreachable here because `Language` ranges over the registered keys,
and likewise for the `|| normal` difficulty fallback).  In words mode:
target length `40 * time * 5` characters, sentences first up to 60% of
it (without replacement), then words (with replacement), joined with
single spaces in draw order. -/
def generateTestText (cfg : Config) (rng : ℕ → ℕ) : List Char :=
  match cfg.mode with
  | .code =>
    let snippets := codeSnippets cfg.language
    snippets.getD (rng 0 % snippets.length) []
  | .words =>
    let words := difficultyWords cfg.difficulty
    let sentences := difficultySentences cfg.difficulty
    let targetWPM := 40
    let targetWords := targetWPM * cfg.time
    let targetChars := targetWords * 5
    let r := sentenceLoop rng (targetChars * 6 / 10) sentences 0 0
    let wordParts := wordLoop rng targetChars words r.2.1 r.2.2
    List.intercalate [' '] (r.1 ++ wordParts)

/-- `this.state` of `TypingTestManager`, together with the timer flag
(`this.timer`, reduced to whether an interval is armed) and the ghost
`completedEvent` flag recording that `completeTest` fired its
`onComplete` callback.  The manager's mutable `this.config` is carried
here as well. -/
structure TState where
  config : Config
  isActive : Bool
  isPaused : Bool
  startTime : Option ℤ
  endTime : Option ℤ
  timeRemaining : ℤ
  currentText : List Char
  typedText : List Char
  currentPosition : ℕ
  errors : ℕ
  totalChars : ℕ
  correctChars : ℕ
  timerArmed : Bool
  completedEvent : Bool
deriving DecidableEq, Repr

/-- The state set up by the constructor. -/
def initialState : TState :=
  { config := defaultConfig
    isActive := false
    isPaused := false
    startTime := none
    endTime := none
    timeRemaining := 0
    currentText := []
    typedText := []
    currentPosition := 0
    errors := 0
    totalChars := 0
    correctChars := 0
    timerArmed := false
    completedEvent := false }

/-- `TypingTestManager.resetState`: clears the run state, sets
`timeRemaining = config.time * 60` seconds, and clears the timer.  The
ghost `completedEvent` flag is cleared with the rest of the session
state (a reset state is a fresh, un-completed session). -/
def resetState (s : TState) : TState :=
  { s with
      isActive := false
      isPaused := false
      startTime := none
      endTime := none
      timeRemaining := (s.config.time : ℤ) * 60
      typedText := []
      currentPosition := 0
      errors := 0
      totalChars := 0
      correctChars := 0
      timerArmed := false
      completedEvent := false }

/-- `TypingTestManager.configure`: merge the new configuration, run
`generateTestText`, then `resetState`. -/
def configure (cfg : Config) (rng : ℕ → ℕ) (s : TState) : TState :=
  let s1 : TState := { s with config := cfg }
  let s2 : TState := { s1 with currentText := generateTestText cfg rng }
  resetState s2

/-- `TypingTestManager.start` at timestamp `now`: activate, unpause,
record `startTime`, arm the countdown timer (`startTimer`). -/
def start (now : ℤ) (s : TState) : TState :=
  { s with
      isActive := true
      isPaused := false
      startTime := some now
      timerArmed := true }

/-- `TypingTestManager.pause`: set paused and clear the timer. -/
def pause (s : TState) : TState :=
  { s with isPaused := true, timerArmed := false }

/-- `TypingTestManager.resume`: unpause and re-arm the timer. -/
def resume (s : TState) : TState :=
  { s with isPaused := false, timerArmed := true }

/-- `TypingTestManager.stop` at timestamp `now`: deactivate, record
`endTime`, clear the timer. -/
def stop (now : ℤ) (s : TState) : TState :=
  { s with
      isActive := false
      endTime := some now
      timerArmed := false }

/-- `TypingTestManager.completeTest`: `stop()` plus the `onComplete`
emission, recorded in the ghost `completedEvent` flag. -/
def completeTest (now : ℤ) (s : TState) : TState :=
  { stop now s with completedEvent := true }

/-- `TypingTestManager.reset`: `stop()`, `resetState()`, then
`generateTestText()` under the current configuration. -/
def reset (rng : ℕ → ℕ) (now : ℤ) (s : TState) : TState :=
  let s1 := resetState (stop now s)
  { s1 with currentText := generateTestText s1.config rng }

/-- One firing of the `startTimer` interval callback at timestamp
`now`: only possible while the timer is armed; while unpaused and
active it decrements `timeRemaining` and calls `completeTest` when the
remaining time reaches zero. -/
def tick (now : ℤ) (s : TState) : TState :=
  if s.timerArmed then
    if ¬s.isPaused ∧ s.isActive then
      let s1 : TState := { s with timeRemaining := s.timeRemaining - 1 }
      if s1.timeRemaining ≤ 0 then completeTest now s1 else s1
    else s
  else s

/-- `TypingTestManager.handleInput` at timestamp `now`, where `v` is
the full input-box content after the edit (`e.target.value`).  Ignored
unless active and unpaused; a shorter input is a deletion (counters
untouched); otherwise the last character of `v` is compared with
`currentText[currentPosition]` (both `Option Char`, matching the JS
`===` on possibly-undefined characters), `totalChars` is incremented,
and the correct branch checks for completion. -/
def handleInput (now : ℤ) (v : List Char) (s : TState) : TState :=
  if ¬s.isActive ∨ s.isPaused then s
  else
    let inputLength := v.length
    if inputLength < s.typedText.length then
      { s with typedText := v, currentPosition := inputLength }
    else
      let newChar : Option Char := v.getLast?
      let expectedChar : Option Char := s.currentText[s.currentPosition]?
      let s1 : TState := { s with totalChars := s.totalChars + 1 }
      if newChar = expectedChar then
        let s2 : TState :=
          { s1 with
              correctChars := s1.correctChars + 1
              typedText := v
              currentPosition := inputLength }
        if s2.currentText.length ≤ s2.currentPosition then completeTest now s2
        else s2
      else
        { s1 with
            errors := s1.errors + 1
            typedText := v
            currentPosition := inputLength }

/-- `TypingTestManager.isRunning`. -/
def isRunning (s : TState) : Bool :=
  s.isActive && !s.isPaused

/-- The snapshot struct returned by `calculateStats`. -/
structure Stats where
  wpm : ℚ
  accuracy : ℚ
  timeRemaining : ℤ
  timeElapsed : ℚ
  charactersTyped : ℕ
  correctChars : ℕ
  errors : ℕ
  totalChars : ℕ
  progress : ℚ
deriving Repr

/-- `TypingTestManager.calculateStats` at time `nowMs` (milliseconds),
with real arithmetic modelled in `ℚ`.  Note the divide-by-zero floor is
`1/60` minutes (one second), and `progress` is unclamped. -/
def calculateStats (nowMs : ℤ) (s : TState) : Stats :=
  let timeElapsed : ℚ :=
    match s.startTime with
    | some t0 => ((nowMs - t0 : ℤ) : ℚ) / 1000
    | none => 0
  let minutes : ℚ := max (timeElapsed / 60) (1 / 60)
  let wpm : ℚ := ((s.correctChars : ℚ) / 5) / minutes
  let accuracy : ℚ :=
    if 0 < s.totalChars then ((s.correctChars : ℚ) / (s.totalChars : ℚ)) * 100
    else 100
  { wpm := max 0 wpm
    accuracy := max 0 (min 100 accuracy)
    timeRemaining := max 0 s.timeRemaining
    timeElapsed := timeElapsed
    charactersTyped := s.currentPosition
    correctChars := s.correctChars
    errors := s.errors
    totalChars := s.totalChars
    progress := ((s.currentPosition : ℚ) / (s.currentText.length : ℚ)) * 100 }

/-- `TypingTestManager.getProgress` (unclamped; the JS division by zero
on an empty `currentText` is outside this model, which is only used
with a non-empty target). -/
def getProgress (s : TState) : ℚ :=
  ((s.currentPosition : ℚ) / (s.currentText.length : ℚ)) * 100

/-- The spec's session phases (§3). -/
inductive Phase where
  | idle | running | paused | completed | stopped
deriving DecidableEq, Repr

/-- The spec phase derived from the code's state: the code has no
explicit phase field; `running`/`paused` are `isActive`/`isPaused`,
`completed` is the recorded `completeTest` emission, and an inactive,
never-started state is `idle`. -/
def phase (s : TState) : Phase :=
  if s.isActive then (if s.isPaused then .paused else .running)
  else if s.completedEvent then .completed
  else if s.startTime = none then .idle
  else .stopped

/-- The operations of the session state machine, as listed in the
claims: configure, start, pause, resume, stop, reset, and keystroke
submission (`handleInput`). -/
inductive Op where
  | configure (cfg : Config) (rng : ℕ → ℕ)
  | start (now : ℤ)
  | pause
  | resume
  | stop (now : ℤ)
  | reset (rng : ℕ → ℕ) (now : ℤ)
  | input (now : ℤ) (v : List Char)

/-- Interpretation of an operation on the session state. -/
def Op.apply : Op → TState → TState
  | .configure cfg rng => PacTyping.configure cfg rng
  | .start now => PacTyping.start now
  | .pause => PacTyping.pause
  | .resume => PacTyping.resume
  | .stop now => PacTyping.stop now
  | .reset rng now => PacTyping.reset rng now
  | .input now v => handleInput now v

/-- The operations that are not `configure`/`reset` (those two zero the
counters; all others leave them monotone). -/
def Op.keepsCounters : Op → Prop
  | .configure _ _ => False
  | .reset _ _ => False
  | _ => True

/-- The data-model invariant of §3: the typed-prefix length mirrors the
typed text, and correct keystrokes never exceed total keystrokes. -/
def Inv (s : TState) : Prop :=
  s.currentPosition = s.typedText.length ∧ s.correctChars ≤ s.totalChars

/-! ## Spec-side text generator (§4.1, words mode)

A second definition of the words-mode generator, written from the
spec's own description, to be compared with the source-embedded
`generateTestText`: target character length `40 * durationSeconds/60 *
5`; whole sentences drawn at random without replacement until 60% of
the target length or pool exhaustion; then words drawn at random with
replacement until the target length or pool exhaustion; all parts
joined with single spaces in draw order. -/

/-- Spec step (a): sentence draws without replacement, stopping at 60%
of the target length (`threshold`) or when the pool is exhausted. -/
def specDrawSentences (rng : ℕ → ℕ) (threshold : ℕ) :
    List (List Char) → ℕ → ℕ → List (List Char) × ℕ × ℕ
  | pool, accLen, i =>
    if h : accLen < threshold ∧ pool ≠ [] then
      let idx := rng i % pool.length
      let sentence := pool.getD idx []
      let rest := pool.eraseIdx idx
      let r := specDrawSentences rng threshold rest
        (accLen + sentence.length + 1) (i + 1)
      (sentence :: r.1, r.2)
    else ([], accLen, i)
termination_by pool _ _ => pool.length
decreasing_by exact length_eraseIdx_mod_lt _ h.2 _

/-- Spec step (b): word draws with replacement, stopping at the target
length or when the pool is exhausted. -/
def specDrawWords (rng : ℕ → ℕ) (target : ℕ) (pool : List (List Char)) :
    ℕ → ℕ → List (List Char)
  | accLen, i =>
    if h : accLen < target ∧ pool ≠ [] then
      let word := pool.getD (rng i % pool.length) []
      word :: specDrawWords rng target pool (accLen + word.length + 1) (i + 1)
    else []
termination_by accLen _ => target - accLen
decreasing_by omega

/-- The words-mode generator as the spec states it, as a function of
`durationSeconds` and the difficulty pools. -/
def generateWordsSpec (durationSeconds : ℕ) (sentencePool wordPool : List (List Char))
    (rng : ℕ → ℕ) : List Char :=
  let targetLen := 40 * durationSeconds / 60 * 5
  let r := specDrawSentences rng (targetLen * 60 / 100) sentencePool 0 0
  let wordParts := specDrawWords rng targetLen wordPool r.2.1 r.2.2
  List.intercalate [' '] (r.1 ++ wordParts)

/-! ## Background animation (`src/animations.js`), completion effect -/

/-- A Pac-Man entity; only the fields touched by the completion effect
are carried symbolically (`ℚ` stands for the JS doubles; doubling and
halving are exact in both). -/
structure Pacman where
  x : ℚ
  y : ℚ
  vx : ℚ
  vy : ℚ
  speed : ℚ
deriving DecidableEq, Repr

/-- A particle, as pushed by `addCompletionEffect`. -/
structure Particle where
  x : ℚ
  y : ℚ
  vx : ℚ
  vy : ℚ
  size : ℚ
  colorIdx : ℕ
  life : ℚ
  maxLife : ℚ
  alpha : ℚ
deriving DecidableEq, Repr

/-- The part of `AnimationManager` state involved in the completion
effect: canvas dimensions, the Pac-Man list, and the particle pool. -/
structure AnimState where
  width : ℚ
  height : ℚ
  pacmanCharacters : List Pacman
  particles : List Particle
deriving DecidableEq, Repr

/-- The `i`-th celebratory particle spawned by `addCompletionEffect`:
centred on the canvas with ±100 px jitter, random velocity in
(-5, 5), size in [2, 8), one of 5 colors, life 3000 ms.  `rq` is the
`Math.random()` value stream; particle `i` consumes draws
`6*i .. 6*i+5`. -/
def mkCelebrationParticle (w h : ℚ) (rq : ℕ → ℚ) (i : ℕ) : Particle :=
  { x := w / 2 + (rq (6 * i) - 1/2) * 200
    y := h / 2 + (rq (6 * i + 1) - 1/2) * 200
    vx := (rq (6 * i + 2) - 1/2) * 10
    vy := (rq (6 * i + 3) - 1/2) * 10
    size := rq (6 * i + 4) * 6 + 2
    colorIdx := (⌊rq (6 * i + 5) * 5⌋).toNat
    life := 3000
    maxLife := 3000
    alpha := 1 }

/-- `AnimationManager.addCompletionEffect` (the immediate part): push
50 celebration particles and double every Pac-Man's `speed`, `vx`,
`vy`.  The delayed reversion is `revertCompletionEffect`. -/
def addCompletionEffect (rq : ℕ → ℚ) (st : AnimState) : AnimState :=
  { st with
      particles := st.particles ++
        (List.range 50).map (mkCelebrationParticle st.width st.height rq)
      pacmanCharacters := st.pacmanCharacters.map fun p =>
        { p with speed := p.speed * 2, vx := p.vx * 2, vy := p.vy * 2 } }

/-- The `setTimeout(…, 3000)` body of `addCompletionEffect`: halve
every Pac-Man's `speed`, `vx`, `vy`. -/
def revertCompletionEffect (st : AnimState) : AnimState :=
  { st with
      pacmanCharacters := st.pacmanCharacters.map fun p =>
        { p with speed := p.speed / 2, vx := p.vx / 2, vy := p.vy / 2 } }

/-! ## Concrete states used by witnesses and counterexamples -/

/-- A constant random index stream (always draws index 0). -/
def rng0 : ℕ → ℕ := fun _ => 0

/-- A freshly started session whose target text is `"cat"`. -/
def sCat : TState :=
  { initialState with
      isActive := true
      startTime := some 0
      timeRemaining := 180
      currentText := String.data "cat"
      timerArmed := true }

/-- `sCat` after one correct keystroke (`"c"`). -/
def sCatOne : TState := handleInput 5 ['c'] sCat

/-- A paused session. -/
def sCatPaused : TState := pause sCatOne

/-- A running session over target `"a"` with nothing typed yet. -/
def sA : TState :=
  { initialState with
      isActive := true
      startTime := some 0
      timeRemaining := 180
      currentText := ['a']
      timerArmed := true }

/-- A running session whose position is already at the end of the
target (`currentText = "a"`, one wrong character in the buffer). -/
def sPast : TState :=
  { initialState with
      isActive := true
      startTime := some 0
      timeRemaining := 180
      currentText := ['a']
      typedText := ['b']
      currentPosition := 1
      errors := 1
      totalChars := 1
      timerArmed := true }

/-- A started session with 5 correct characters and no elapsed time. -/
def sWpm : TState :=
  { initialState with
      isActive := true
      startTime := some 0
      correctChars := 5
      totalChars := 5
      timerArmed := true }

/-- A one-Pac-Man animation state. -/
def animW : AnimState :=
  { width := 800
    height := 600
    pacmanCharacters := [{ x := 100, y := 100, vx := 1, vy := -2, speed := 2 }]
    particles := [] }

/-- Submitting the first `k` characters of `t` one by one: the `j`-th
keystroke delivers the input buffer `t.take j` (the user re-typing the
target exactly, character by character). -/
def typeSteps (now : ℤ) (t : List Char) (s : TState) : ℕ → TState
  | 0 => s
  | k + 1 => handleInput now (t.take (k + 1)) (typeSteps now t s k)

/-! ## Claim theorems -/

/-- Claim C7: for every session whose phase is paused or stopped (not
running), submitting a keystroke is a silent no-op: it raises no error
and leaves the entire session state unchanged. -/
theorem claim_C7 (now : ℤ) (v : List Char) (s : TState)
    (h : phase s ≠ Phase.running) :
    handleInput now v s = s := by
  unfold handleInput
  rcases hA : s.isActive <;> rcases hP : s.isPaused <;>
    simp_all [phase]

/-- Witness for C7 on a concrete paused session. -/
theorem claim_C7_witness :
    handleInput 9 ['x'] sCatPaused = sCatPaused :=
  claim_C7 9 ['x'] sCatPaused (by decide)

/-- Claim C8: `stop` is idempotent on the session state (for a fixed
stop timestamp; a second stop at another timestamp rewrites only
`endTime`), and after `stop` the countdown timer is disarmed, so no
sequence of timer ticks changes `timeRemaining` (the ticks are
no-ops). -/
theorem claim_C8 (s : TState) (now now2 : ℤ) :
    stop now (stop now s) = stop now s ∧
    stop now2 (stop now s) = { stop now s with endTime := some now2 } ∧
    (∀ n : ℕ, (tick now2)^[n] (stop now s) = stop now s) := by
  refine ⟨rfl, rfl, fun n => ?_⟩
  have h1 : tick now2 (stop now s) = stop now s := by
    simp [tick, stop]
  exact Function.iterate_fixed h1 n

/-- Claim C9: `addCompletionEffect` grows the particle pool by exactly
the fixed burst size 50 and multiplies every Pac-Man's speed and
velocity by exactly 2; the delayed reversion restores every Pac-Man
exactly (no overlapping boost assumed: the reversion runs directly on
the boosted state). -/
theorem claim_C9 (rq : ℕ → ℚ) (st : AnimState) :
    (addCompletionEffect rq st).particles.length = st.particles.length + 50 ∧
    ((addCompletionEffect rq st).pacmanCharacters = st.pacmanCharacters.map fun p =>
      { p with speed := p.speed * 2, vx := p.vx * 2, vy := p.vy * 2 }) ∧
    (revertCompletionEffect (addCompletionEffect rq st)).pacmanCharacters =
      st.pacmanCharacters := by
  refine ⟨by simp [addCompletionEffect], rfl, ?_⟩
  have hcomp :
      ((fun q : Pacman => { q with speed := q.speed / 2, vx := q.vx / 2, vy := q.vy / 2 }) ∘
        fun p : Pacman => { p with speed := p.speed * 2, vx := p.vx * 2, vy := p.vy * 2 }) =
      id := by
    funext p
    cases p
    simp [Function.comp]
  simp [revertCompletionEffect, addCompletionEffect, List.map_map, hcomp]

/-- Claim C4 counterexample: the claim's divide-by-zero floor of
`1/3600` minutes does not match the implementation, whose floor is
`1/60` minutes (one second).  On a started session with 5 correct
characters and zero elapsed time the implementation reports `wpm = 60`,
while the claimed formula `max(0, (5/5) / max(0/60, 1/3600))` demands
`3600`. -/
theorem claim_C4_counterexample :
    (calculateStats 0 sWpm).wpm = 60 ∧
    max 0 (((sWpm.correctChars : ℚ) / 5) / max ((0 : ℚ) / 60) (1 / 3600)) = 3600 ∧
    (60 : ℚ) ≠ 3600 := by
  refine ⟨?_, ?_, by norm_num⟩
  · norm_num [calculateStats, sWpm, initialState, defaultConfig]
  · norm_num [sWpm, initialState, defaultConfig]

/-- Claim C4 as amended: the metrics calculator computes elapsed
minutes as `max(elapsedSeconds/60, 1/60)` (not `1/3600`) and `wpm =
max(0, (correctCharCount/5) / minutes)`; in particular with
`correctCharCount = 50` and 60 elapsed seconds it returns `wpm = 10`. -/
theorem claim_C4_amended (s : TState) (nowMs t0 : ℤ) (h0 : s.startTime = some t0) :
    (calculateStats nowMs s).wpm =
      max 0 (((s.correctChars : ℚ) / 5) /
        max ((((nowMs - t0 : ℤ) : ℚ) / 1000) / 60) (1 / 60)) ∧
    (s.correctChars = 50 → nowMs - t0 = 60000 → (calculateStats nowMs s).wpm = 10) := by
  constructor
  · simp [calculateStats, h0]
  · intro hc ht
    have h60 : ((nowMs - t0 : ℤ) : ℚ) = 60000 := by
      rw [ht]; norm_num
    simp [calculateStats, h0, hc, h60]
    norm_num

/-- Witness for the amended C4 on a concrete session: 50 correct
characters after one minute give 10 WPM. -/
theorem claim_C4_witness :
    (calculateStats 60000 { sWpm with correctChars := 50 }).wpm = 10 :=
  (claim_C4_amended { sWpm with correctChars := 50 } 60000 0 rfl).2 rfl rfl

/-- Claim C6: a multi-character insertion (buffer grows by more than
one character) is processed as a single insertion event: only the last
character of the new input is compared with the expected character at
the old position, `totalChars` is incremented exactly once, and
`typedText`/`currentPosition` advance to the full new input length. -/
theorem claim_C6 (now : ℤ) (v : List Char) (s : TState)
    (hA : s.isActive = true) (hP : s.isPaused = false)
    (hg : s.typedText.length + 1 < v.length) :
    (handleInput now v s).totalChars = s.totalChars + 1 ∧
    (handleInput now v s).typedText = v ∧
    (handleInput now v s).currentPosition = v.length ∧
    (v.getLast? = s.currentText[s.currentPosition]? →
      (handleInput now v s).correctChars = s.correctChars + 1 ∧
      (handleInput now v s).errors = s.errors) ∧
    (v.getLast? ≠ s.currentText[s.currentPosition]? →
      (handleInput now v s).errors = s.errors + 1 ∧
      (handleInput now v s).correctChars = s.correctChars) := by
  have hnd : ¬ v.length < s.typedText.length := by omega
  unfold handleInput
  simp only [hA, hP]
  split_ifs with hguard heq hdone <;> simp_all [completeTest, stop]

/-- Witness for C6: pasting two characters at once over target `"cat"`
counts a single (here: correct, since the pasted text ends in the
expected first character) keystroke. -/
theorem claim_C6_witness :
    (handleInput 3 ['x', 'c'] sCat).totalChars = sCat.totalChars + 1 ∧
    (handleInput 3 ['x', 'c'] sCat).typedText = ['x', 'c'] ∧
    (handleInput 3 ['x', 'c'] sCat).currentPosition = 2 ∧
    (handleInput 3 ['x', 'c'] sCat).correctChars = sCat.correctChars + 1 := by
  have h := claim_C6 3 ['x', 'c'] sCat (by decide) (by decide) (by decide)
  exact ⟨h.1, h.2.1, h.2.2.1, (h.2.2.2.1 (by decide)).1⟩

/-- Claim C10: in a running session whose position has reached (or
passed) the end of the target, a further insertion is still total: the
out-of-range expected character is `none`, so the keystroke lands in
the incorrect branch — `totalChars` and `errors` are incremented,
`correctChars` is not, the position keeps advancing past the target
length, no completion fires, and the reported progress exceeds 100. -/
theorem claim_C10 (now : ℤ) (v : List Char) (s : TState)
    (hA : s.isActive = true) (hP : s.isPaused = false)
    (hpos : s.currentText.length ≤ s.currentPosition)
    (hinv : s.currentPosition = s.typedText.length)
    (hins : s.typedText.length < v.length) :
    (handleInput now v s).totalChars = s.totalChars + 1 ∧
    (handleInput now v s).errors = s.errors + 1 ∧
    (handleInput now v s).correctChars = s.correctChars ∧
    (handleInput now v s).currentPosition = v.length ∧
    s.currentText.length < (handleInput now v s).currentPosition ∧
    phase (handleInput now v s) = Phase.running ∧
    (handleInput now v s).completedEvent = s.completedEvent ∧
    (0 < s.currentText.length → 100 < getProgress (handleInput now v s)) := by
  have hnd : ¬ v.length < s.typedText.length := by omega
  have hv : v ≠ [] := by
    intro hnil
    rw [hnil] at hins
    simp at hins
  have hlast : ∃ c, v.getLast? = some c := by
    cases hl : v.getLast? with
    | none => exact absurd (List.getLast?_eq_none_iff.mp hl) hv
    | some c => exact ⟨c, rfl⟩
  have hexp : s.currentText[s.currentPosition]? = none :=
    List.getElem?_eq_none hpos
  obtain ⟨c, hc⟩ := hlast
  have hne : v.getLast? ≠ s.currentText[s.currentPosition]? := by
    rw [hc, hexp]
    simp
  have hstep : handleInput now v s =
      { s with
          totalChars := s.totalChars + 1
          errors := s.errors + 1
          typedText := v
          currentPosition := v.length } := by
    unfold handleInput
    simp only [hA, hP]
    split_ifs with hguard heq <;> simp_all
  rw [hstep]
  have hlt : s.currentText.length < v.length := by omega
  refine ⟨rfl, rfl, rfl, rfl, hlt, by simp [phase, hA, hP], rfl, fun htpos => ?_⟩
  unfold getProgress
  simp only
  have hQ : (s.currentText.length : ℚ) < (v.length : ℚ) := by
    exact_mod_cast hlt
  have hQpos : (0 : ℚ) < (s.currentText.length : ℚ) := by
    exact_mod_cast htpos
  have h1 : (1 : ℚ) < (v.length : ℚ) / (s.currentText.length : ℚ) :=
    (one_lt_div hQpos).mpr hQ
  calc (100 : ℚ) = 1 * 100 := by norm_num
    _ < ((v.length : ℚ) / (s.currentText.length : ℚ)) * 100 := by
        exact mul_lt_mul_of_pos_right h1 (by norm_num)

/-- Witness for C10: one extra keystroke past the end of target `"a"`
drives progress to 200. -/
theorem claim_C10_witness :
    (handleInput 2 ['b', 'q'] sPast).totalChars = sPast.totalChars + 1 ∧
    (handleInput 2 ['b', 'q'] sPast).errors = sPast.errors + 1 ∧
    phase (handleInput 2 ['b', 'q'] sPast) = Phase.running ∧
    100 < getProgress (handleInput 2 ['b', 'q'] sPast) := by
  have h := claim_C10 2 ['b', 'q'] sPast (by decide) (by decide) (by decide)
    (by decide) (by decide)
  exact ⟨h.1, h.2.1, h.2.2.2.2.2.1, h.2.2.2.2.2.2.2 (by decide)⟩

/-- Claim C5 counterexample: the completion check lives only in the
correct-character branch.  On a running session over target `"a"`,
submitting the wrong character `"x"` advances `currentPosition` to the
full target length, yet the session stays `running` and no completion
event fires — refuting the claim that `completeTest()` is called in
either branch once the position reaches the end. -/
theorem claim_C5_counterexample :
    (handleInput 0 ['x'] sA).currentPosition = sA.currentText.length ∧
    phase (handleInput 0 ['x'] sA) = Phase.running ∧
    (handleInput 0 ['x'] sA).completedEvent = false := by
  decide

/-- Claim C5 as amended: after an insertion in a running session,
`completeTest()` is called — transitioning the session to `completed` —
only in the correct-character branch, when the new position reaches (or
passes) the end of the target; in the incorrect-character branch the
session stays `running`, even if the position reaches the end. -/
theorem claim_C5_amended (now : ℤ) (v : List Char) (s : TState)
    (hA : s.isActive = true) (hP : s.isPaused = false)
    (hins : s.typedText.length ≤ v.length) :
    (v.getLast? = s.currentText[s.currentPosition]? →
      s.currentText.length ≤ v.length →
      phase (handleInput now v s) = Phase.completed) ∧
    (v.getLast? ≠ s.currentText[s.currentPosition]? →
      phase (handleInput now v s) = Phase.running) := by
  have hnd : ¬ v.length < s.typedText.length := by omega
  constructor
  · intro heq hend
    unfold handleInput
    simp only [hA, hP]
    split_ifs with hguard hcmp hdone <;>
      simp_all [phase, completeTest, stop]
  · intro hne
    unfold handleInput
    simp only [hA, hP]
    split_ifs with hguard hcmp <;> simp_all [phase]

/-- Witness for the amended C5: finishing target `"cat"` with the final
correct keystroke completes the session. -/
theorem claim_C5_witness :
    phase (handleInput 9 ['c', 'a', 't']
      { sCat with typedText := ['c', 'a'], currentPosition := 2 }) =
      Phase.completed := by
  have h := claim_C5_amended 9 ['c', 'a', 't']
    { sCat with typedText := ['c', 'a'], currentPosition := 2 }
    (by decide) (by decide) (by decide)
  exact h.1 (by decide) (by decide)

/-- Claim C2 counterexample: the claim includes `configure` and `reset`
among the operations after which the counters never decrease, but
`reset` (like `configure`) zeroes them: after one counted keystroke,
`totalChars` drops from 1 to 0. -/
theorem claim_C2_counterexample :
    ((Op.reset rng0 0).apply sCatOne).totalChars < sCatOne.totalChars := by
  have hz : ((Op.reset rng0 0).apply sCatOne).totalChars = 0 := by
    simp [Op.apply, reset, resetState]
  have ho : sCatOne.totalChars = 1 := by decide
  omega

/-- Claim C2 as amended: after every operation the session invariant
`currentPosition = typedText.length ∧ correctChars ≤ totalChars` holds
(and `0 ≤ errors` trivially); the three counters never decrease under
start, pause, resume, stop and keystroke submission (a deletion
keystroke leaves them unchanged), while `configure` and `reset` zero
them (they begin a fresh session). -/
theorem claim_C2_amended (op : Op) (s : TState) (h : Inv s) :
    Inv (op.apply s) ∧
    0 ≤ (op.apply s).errors ∧
    (op.keepsCounters →
      s.totalChars ≤ (op.apply s).totalChars ∧
      s.correctChars ≤ (op.apply s).correctChars ∧
      s.errors ≤ (op.apply s).errors) ∧
    (∀ now v, v.length < s.typedText.length →
      (Op.input now v).apply s = s ∨
      ((Op.input now v).apply s).totalChars = s.totalChars ∧
      ((Op.input now v).apply s).correctChars = s.correctChars ∧
      ((Op.input now v).apply s).errors = s.errors) ∧
    (¬op.keepsCounters →
      (op.apply s).totalChars = 0 ∧
      (op.apply s).correctChars = 0 ∧
      (op.apply s).errors = 0) := by
  obtain ⟨hpos, hct⟩ := h
  have hdel : ∀ (now : ℤ) (v : List Char), v.length < s.typedText.length →
      (Op.input now v).apply s = s ∨
      ((Op.input now v).apply s).totalChars = s.totalChars ∧
      ((Op.input now v).apply s).correctChars = s.correctChars ∧
      ((Op.input now v).apply s).errors = s.errors := by
    intro now v hlen
    simp only [Op.apply]
    unfold handleInput
    by_cases hA : s.isActive = true
    · by_cases hP : s.isPaused = true
      · left
        simp [hA, hP]
      · have hP2 : s.isPaused = false := by simp_all
        right
        simp [hA, hP2, hlen]
    · left
      have hA2 : s.isActive = false := by simp_all
      simp [hA2]
  cases op with
  | configure cfg rng =>
    refine ⟨⟨by simp [Op.apply, configure, resetState], ?_⟩, Nat.zero_le _, ?_, hdel, ?_⟩ <;>
      simp [Op.apply, configure, resetState, Op.keepsCounters]
  | start now =>
    refine ⟨⟨?_, ?_⟩, Nat.zero_le _, ?_, hdel, ?_⟩ <;>
      simp [Op.apply, start, Op.keepsCounters, hpos, hct]
  | pause =>
    refine ⟨⟨?_, ?_⟩, Nat.zero_le _, ?_, hdel, ?_⟩ <;>
      simp [Op.apply, pause, Op.keepsCounters, hpos, hct]
  | resume =>
    refine ⟨⟨?_, ?_⟩, Nat.zero_le _, ?_, hdel, ?_⟩ <;>
      simp [Op.apply, resume, Op.keepsCounters, hpos, hct]
  | stop now =>
    refine ⟨⟨?_, ?_⟩, Nat.zero_le _, ?_, hdel, ?_⟩ <;>
      simp [Op.apply, stop, Op.keepsCounters, hpos, hct]
  | reset rng now =>
    refine ⟨⟨by simp [Op.apply, reset, resetState, stop], ?_⟩, Nat.zero_le _, ?_, hdel, ?_⟩ <;>
      simp [Op.apply, reset, resetState, stop, Op.keepsCounters]
  | input now v =>
    have hmain : Inv (handleInput now v s) ∧
        s.totalChars ≤ (handleInput now v s).totalChars ∧
        s.correctChars ≤ (handleInput now v s).correctChars ∧
        s.errors ≤ (handleInput now v s).errors := by
      unfold handleInput
      by_cases hA : s.isActive = true
      · by_cases hP : s.isPaused = true
        · simp [hA, hP, Inv, hpos, hct]
        · have hP2 : s.isPaused = false := by simp_all
          by_cases hlen : v.length < s.typedText.length
          · simp [hA, hP2, hlen, Inv, hct]
          · by_cases hcmp : v.getLast? = s.currentText[s.currentPosition]?
            · by_cases hdone : s.currentText.length ≤ v.length
              · simp [hA, hP2, hlen, hcmp, hdone, Inv, completeTest, stop]
                omega
              · simp [hA, hP2, hlen, hcmp, hdone, Inv]
                omega
            · simp [hA, hP2, hlen, hcmp, Inv]
              omega
      · have hA2 : s.isActive = false := by simp_all
        simp [hA2, Inv, hpos, hct]
    exact ⟨hmain.1, Nat.zero_le _, fun _ => hmain.2, hdel,
      by simp [Op.keepsCounters]⟩

/-- Witness for the amended C2: a correct keystroke on a fresh running
session preserves the invariant and the counters are monotone. -/
theorem claim_C2_witness :
    Inv ((Op.input 5 ['c']).apply sCat) ∧
    sCat.totalChars ≤ ((Op.input 5 ['c']).apply sCat).totalChars := by
  have h := claim_C2_amended (Op.input 5 ['c']) sCat ⟨by decide, by decide⟩
  exact ⟨h.1, (h.2.2.1 trivial).1⟩

/-- The last character of a `k+1`-prefix is the character at index
`k`. -/
theorem getLast?_take_succ (t : List Char) (k : ℕ) (h : k < t.length) :
    (t.take (k + 1)).getLast? = t[k]? := by
  rw [List.getLast?_eq_getElem?]
  have hlen : (t.take (k + 1)).length = k + 1 := by
    rw [List.length_take]
    omega
  rw [hlen]
  simp

/-- Characterization of an exact re-typing run: starting from a fresh
running session over target `t`, after `k ≤ t.length` correct
keystrokes the buffer is `t.take k`, all `k` keystrokes are counted
correct, and `completeTest` has fired exactly on the final keystroke
(`k = t.length`, for non-empty `t`). -/
theorem typeSteps_eq (now : ℤ) (t : List Char) (s : TState)
    (hA : s.isActive = true) (hP : s.isPaused = false)
    (hT : s.currentText = t) (hTy : s.typedText = [])
    (hPos : s.currentPosition = 0) (hE : s.errors = 0)
    (hTot : s.totalChars = 0) (hC : s.correctChars = 0)
    (k : ℕ) (hk : k ≤ t.length) :
    typeSteps now t s k =
      if k < t.length ∨ k = 0 then
        { s with
            typedText := t.take k
            currentPosition := k
            correctChars := k
            totalChars := k }
      else
        completeTest now
          { s with
              typedText := t.take k
              currentPosition := k
              correctChars := k
              totalChars := k } := by
  induction k with
  | zero =>
    rw [if_pos (Or.inr rfl)]
    cases s
    simp_all [typeSteps]
  | succ k ih =>
    have hk0 : k ≤ t.length := Nat.le_of_succ_le hk
    have hklt : k < t.length := Nat.lt_of_succ_le hk
    have hstep : typeSteps now t s k =
        { s with
            typedText := t.take k
            currentPosition := k
            correctChars := k
            totalChars := k } := by
      rw [ih hk0, if_pos (Or.inl hklt)]
    have hlen1 : (t.take (k + 1)).length = k + 1 := by
      rw [List.length_take]
      omega
    have hlenk : (t.take k).length = k := by
      rw [List.length_take]
      omega
    have hlast : (t.take (k + 1)).getLast? = t[k]? :=
      getLast?_take_succ t k hklt
    show handleInput now (t.take (k + 1)) (typeSteps now t s k) = _
    rw [hstep]
    unfold handleInput
    simp only [hA, hP, hT, hlen1, hlenk, hlast]
    rw [if_neg (by simp)]
    rw [if_neg (by omega)]
    simp only [if_true]
    by_cases hend : k + 1 < t.length
    · rw [if_neg (by omega), if_pos (Or.inl hend)]
    · have hfin : k + 1 = t.length := by omega
      rw [if_pos (by omega), if_neg (by omega)]

/-- Claim C1: in a running fresh session, submitting keystrokes that
exactly match `currentText` character by character drives the phase
from `running` to `completed` exactly when the position reaches
`currentText.length` (the final keystroke, for a non-empty target), and
at that moment the reported accuracy is 100. -/
theorem claim_C1 (now : ℤ) (t : List Char) (s : TState)
    (hA : s.isActive = true) (hP : s.isPaused = false)
    (hT : s.currentText = t) (hTy : s.typedText = [])
    (hPos : s.currentPosition = 0) (hE : s.errors = 0)
    (hTot : s.totalChars = 0) (hC : s.correctChars = 0)
    (k : ℕ) (hk : k ≤ t.length) :
    (typeSteps now t s k).currentPosition = k ∧
    (typeSteps now t s k).correctChars = k ∧
    (typeSteps now t s k).totalChars = k ∧
    (typeSteps now t s k).errors = 0 ∧
    phase (typeSteps now t s k) =
      (if k = t.length ∧ 0 < k then Phase.completed else Phase.running) ∧
    (k = t.length → 0 < k →
      (calculateStats now (typeSteps now t s k)).accuracy = 100) := by
  rw [typeSteps_eq now t s hA hP hT hTy hPos hE hTot hC k hk]
  by_cases hrun : k < t.length ∨ k = 0
  · rw [if_pos hrun]
    have hcond : ¬(k = t.length ∧ 0 < k) := by omega
    refine ⟨rfl, rfl, rfl, hE, ?_, ?_⟩
    · rw [if_neg hcond]
      simp [phase, hA, hP]
    · intro h1 h2
      exact absurd ⟨h1, h2⟩ hcond
  · rw [if_neg hrun]
    have hfin : k = t.length ∧ 0 < k := by omega
    refine ⟨rfl, rfl, rfl, hE, ?_, ?_⟩
    · rw [if_pos hfin]
      simp [phase, completeTest, stop]
    · intro _ hkpos
      have hkq : (k : ℚ) ≠ 0 := by
        exact_mod_cast Nat.pos_iff_ne_zero.mp hkpos
      simp [calculateStats, completeTest, stop, hkpos, div_self hkq]

/-- Witness for C1: typing `"cat"` in three exact keystrokes completes
the session with accuracy 100. -/
theorem claim_C1_witness :
    (typeSteps 7 (String.data "cat") sCat 3).correctChars = 3 ∧
    phase (typeSteps 7 (String.data "cat") sCat 3) =
      (if 3 = (String.data "cat").length ∧ 0 < 3 then Phase.completed
       else Phase.running) ∧
    (calculateStats 7 (typeSteps 7 (String.data "cat") sCat 3)).accuracy = 100 := by
  have h := claim_C1 7 (String.data "cat") sCat (by decide) (by decide) (by decide)
    (by decide) (by decide) (by decide) (by decide) (by decide) 3 (by decide)
  exact ⟨h.2.1, h.2.2.2.2.1, h.2.2.2.2.2 (by decide) (by decide)⟩

/-- Fuel-indexed equivalence of the source sentence loop and the
spec-worded sentence draw. -/
theorem sentenceLoop_eq_fuel (rng : ℕ → ℕ) (threshold : ℕ) :
    ∀ (n : ℕ) (pool : List (List Char)), pool.length ≤ n → ∀ (len i : ℕ),
      sentenceLoop rng threshold pool len i =
        specDrawSentences rng threshold pool len i := by
  intro n
  induction n with
  | zero =>
    intro pool hn len i
    have hnil : pool = [] := List.length_eq_zero.mp (Nat.le_zero.mp hn)
    subst hnil
    rw [sentenceLoop, specDrawSentences]
    simp
  | succ n ih =>
    intro pool hn len i
    rw [sentenceLoop, specDrawSentences]
    by_cases h : len < threshold ∧ pool ≠ []
    · rw [dif_pos h, dif_pos h]
      have hshrink := length_eraseIdx_mod_lt pool h.2 (rng i)
      have hrec := ih (pool.eraseIdx (rng i % pool.length)) (by omega)
        (len + (pool.getD (rng i % pool.length) []).length + 1) (i + 1)
      simp only [hrec]
    · rw [dif_neg h, dif_neg h]

/-- Equivalence of the source sentence loop and the spec-worded
sentence draw. -/
theorem sentenceLoop_eq_spec (rng : ℕ → ℕ) (threshold : ℕ)
    (pool : List (List Char)) (len i : ℕ) :
    sentenceLoop rng threshold pool len i =
      specDrawSentences rng threshold pool len i :=
  sentenceLoop_eq_fuel rng threshold pool.length pool le_rfl len i

/-- Fuel-indexed equivalence of the source word loop and the
spec-worded word draw. -/
theorem wordLoop_eq_fuel (rng : ℕ → ℕ) (target : ℕ) (pool : List (List Char)) :
    ∀ (n len i : ℕ), target - len ≤ n →
      wordLoop rng target pool len i = specDrawWords rng target pool len i := by
  intro n
  induction n with
  | zero =>
    intro len i hn
    have hc : ¬(len < target ∧ pool ≠ []) := by
      rintro ⟨hlt, -⟩
      omega
    rw [wordLoop, specDrawWords, dif_neg hc, dif_neg hc]
  | succ n ih =>
    intro len i hn
    rw [wordLoop, specDrawWords]
    by_cases h : len < target ∧ pool ≠ []
    · rw [dif_pos h, dif_pos h]
      have hrec := ih (len + (pool.getD (rng i % pool.length) []).length + 1)
        (i + 1) (by omega)
      simp only [hrec]
    · rw [dif_neg h, dif_neg h]

/-- Equivalence of the source word loop and the spec-worded word
draw. -/
theorem wordLoop_eq_spec (rng : ℕ → ℕ) (target : ℕ)
    (pool : List (List Char)) (len i : ℕ) :
    wordLoop rng target pool len i = specDrawWords rng target pool len i :=
  wordLoop_eq_fuel rng target pool (target - len) len i le_rfl

/-- Claim C3: for every words-mode configuration, the source generator
is exactly the spec's algorithm: target character length
`40 * durationSeconds/60 * 5` (with `durationSeconds = 60 * time`);
sentences drawn at random without replacement from the difficulty's
sentence pool until 60% of the target length or pool exhaustion; then
words drawn at random with replacement from the word pool until the
target length or pool exhaustion; all drawn parts joined with single
spaces in draw order (running out of pool content merely ends a phase
early). -/
theorem claim_C3 (cfg : Config) (rng : ℕ → ℕ) (hm : cfg.mode = Mode.words) :
    generateTestText cfg rng =
      generateWordsSpec (cfg.time * 60) (difficultySentences cfg.difficulty)
        (difficultyWords cfg.difficulty) rng := by
  unfold generateTestText generateWordsSpec
  rw [hm]
  have e1 : 40 * (cfg.time * 60) / 60 * 5 = 40 * cfg.time * 5 := by
    have h1 : 40 * (cfg.time * 60) = 40 * cfg.time * 60 := by ring
    rw [h1, Nat.mul_div_cancel _ (by norm_num)]
  have e2 : 40 * cfg.time * 5 * 60 / 100 = 40 * cfg.time * 5 * 6 / 10 := by
    have h1 : 40 * cfg.time * 5 * 60 = 100 * (120 * cfg.time) := by ring
    have h2 : 40 * cfg.time * 5 * 6 = 10 * (120 * cfg.time) := by ring
    rw [h1, h2, Nat.mul_div_cancel_left _ (by norm_num),
      Nat.mul_div_cancel_left _ (by norm_num)]
  simp only [e1, e2, sentenceLoop_eq_spec, wordLoop_eq_spec]

/-- Witness for C3 on a concrete configuration (normal difficulty,
three minutes). -/
theorem claim_C3_witness :
    generateTestText defaultConfig rng0 =
      generateWordsSpec (defaultConfig.time * 60)
        (difficultySentences defaultConfig.difficulty)
        (difficultyWords defaultConfig.difficulty) rng0 :=
  claim_C3 defaultConfig rng0 rfl

end PacTyping
